import Mathlib

/-!
Verification of the handle/resolution protocol (`raw_vc.rs`) and the global
registry (`registry.rs`) of the turbo-tasks engine.

The embedding keeps the source's names and control structure.  The async
engine primitives `read_task_output`, `read_task_cell` (and their untracked
variants) are abstracted as an `Engine` record of deterministic read
functions over a fixed engine state; the loops of `raw_vc.rs` become fueled
recursions (the fuel bounds the number of output hops; `none` means the
fuel ran out, i.e. the loop did not finish within that many hops).
-/

namespace Turbo

abbrev TaskId := Nat
abbrev ValueTypeId := Nat
abbrev TraitTypeId := Nat

/-- `enum RawVc` from raw_vc.rs: `TaskOutput(TaskId)` or `TaskCell(TaskId, usize)`. -/
inductive RawVc where
  | TaskOutput : TaskId → RawVc
  | TaskCell : TaskId → Nat → RawVc
deriving DecidableEq, Repr

/-- `SharedReference(Option<ValueTypeId>, payload)`: only the value-type tag is
relevant to resolution, so the payload is elided. -/
abbrev SharedReference := Option ValueTypeId

/-- `CellContent(Option<SharedReference>)`. -/
abbrev CellContent := Option SharedReference

/-- `enum ResolveTypeError` from raw_vc.rs. -/
inductive ResolveTypeError where
  | noContent
  | untypedContent
  | taskError (source : String)
  | readError (source : String)
deriving DecidableEq, Repr

/-- Abstraction of the engine primitives used by raw_vc.rs against a fixed
engine state: `readOutput task strongly_consistent` models
`read_task_output` / `read_task_output_untracked` / `try_read_task_output`
(resolved, non-pending outcome), `readCell` models `read_task_cell` and
variants, and `valueTraits` models `get_value_type(id).traits`. -/
structure Engine where
  readOutput : TaskId → Bool → Except String RawVc
  readCell : TaskId → Nat → Except String CellContent
  valueTraits : ValueTypeId → List TraitTypeId

/-- `RawVc::is_resolved`. -/
def RawVc.is_resolved : RawVc → Bool
  | .TaskOutput _ => false
  | .TaskCell _ _ => true

/-- `RawVc::get_task_id`. -/
def RawVc.get_task_id : RawVc → TaskId
  | .TaskOutput t => t
  | .TaskCell t _ => t

/-- `RawVc::resolve`: follow the output chain (always with
`strongly_consistent = false`) until a `TaskCell` is reached, which is
returned without any cell read.  The `notified` flag of the source only
programs the `notify_scheduled_tasks` hint, which has no observable effect
on the read values, so it is elided. -/
def resolve (e : Engine) : Nat → RawVc → Option (Except String RawVc)
  | _, .TaskCell t i => some (.ok (.TaskCell t i))
  | 0, .TaskOutput _ => none
  | fuel + 1, .TaskOutput task =>
    match e.readOutput task false with
    | .ok vc => resolve e fuel vc
    | .error s => some (.error s)

/-- The `RawVc::TaskCell` arm of `RawVc::resolve_value`: read the cell and
classify its content exactly as the source does. -/
def resolve_value_step (e : Engine) (value_type : ValueTypeId) (task : TaskId)
    (index : Nat) : Except ResolveTypeError (Option RawVc) :=
  match e.readCell task index with
  | .error source => .error (.readError source)
  | .ok content =>
    match content with
    | some shared_reference =>
      match shared_reference with
      | some cell_value_type =>
        if cell_value_type = value_type then .ok (some (.TaskCell task index))
        else .ok none
      | none => .error .untypedContent
    | none => .error .noContent

/-- `RawVc::resolve_value`: hop along output slots with
`strongly_consistent = false`, then classify the first cell reached. -/
def resolve_value (e : Engine) (value_type : ValueTypeId) :
    Nat → RawVc → Option (Except ResolveTypeError (Option RawVc))
  | _, .TaskCell task index => some (resolve_value_step e value_type task index)
  | 0, .TaskOutput _ => none
  | fuel + 1, .TaskOutput task =>
    match e.readOutput task false with
    | .ok vc => resolve_value e value_type fuel vc
    | .error source => some (.error (.taskError source))

/-- The `RawVc::TaskCell` arm of `RawVc::resolve_trait`. -/
def resolve_trait_step (e : Engine) (trait_type : TraitTypeId) (task : TaskId)
    (index : Nat) : Except ResolveTypeError (Option RawVc) :=
  match e.readCell task index with
  | .error source => .error (.readError source)
  | .ok content =>
    match content with
    | some shared_reference =>
      match shared_reference with
      | some value_type =>
        if (e.valueTraits value_type).contains trait_type then
          .ok (some (.TaskCell task index))
        else .ok none
      | none => .error .untypedContent
    | none => .error .noContent

/-- `RawVc::resolve_trait`. -/
def resolve_trait (e : Engine) (trait_type : TraitTypeId) :
    Nat → RawVc → Option (Except ResolveTypeError (Option RawVc))
  | _, .TaskCell task index => some (resolve_trait_step e trait_type task index)
  | 0, .TaskOutput _ => none
  | fuel + 1, .TaskOutput task =>
    match e.readOutput task false with
    | .ok vc => resolve_trait e trait_type fuel vc
    | .error source => some (.error (.taskError source))

/-- `RawVc::into_read_untracked_internal`: the `strongly_consistent`
argument is an immutable parameter passed to every output hop.  Besides the
result (the final `read_task_cell_untracked` outcome; the type-level
`cast::<T>` is elided) the embedding returns the trace of
`(task, strongly_consistent)` arguments of the output reads issued, in
order. -/
def into_read_untracked_internal (e : Engine) (strongly_consistent : Bool) :
    Nat → RawVc → Option (Except String CellContent × List (TaskId × Bool))
  | _, .TaskCell task index => some (e.readCell task index, [])
  | 0, .TaskOutput _ => none
  | fuel + 1, .TaskOutput task =>
    match e.readOutput task strongly_consistent with
    | .ok vc =>
      (into_read_untracked_internal e strongly_consistent fuel vc).map
        (fun p => (p.1, (task, strongly_consistent) :: p.2))
    | .error s => some (.error s, [(task, strongly_consistent)])

/-- The resolution loop of `ReadRawVcFuture::poll` (success path of the
future: listener / `Poll::Pending` bookkeeping elided, an output read that
stays pending is simply out of scope of the fixed-state model).  The state
`sc` is the future's `strongly_consistent` field; on a successful
`try_read_task_output` hop the source sets `this.strongly_consistent =
false` before continuing.  The trace of `(task, strongly_consistent)`
arguments of the issued output reads is returned alongside the result. -/
def read_raw_vc_poll (e : Engine) :
    Nat → Bool → RawVc → Option (Except String CellContent × List (TaskId × Bool))
  | _, _, .TaskCell task index => some (e.readCell task index, [])
  | 0, _, .TaskOutput _ => none
  | fuel + 1, sc, .TaskOutput task =>
    match e.readOutput task sc with
    | .ok vc =>
      (read_raw_vc_poll e fuel false vc).map
        (fun p => (p.1, (task, sc) :: p.2))
    | .error s => some (.error s, [(task, sc)])

/-- The spec's reachability invariant: following output slots (reads
issued with flag `b`, all succeeding) from a handle reaches a `TaskCell`
within `n` hops. -/
inductive OutputChain (e : Engine) (b : Bool) : RawVc → Nat → Prop
  | cell (t i n : Nat) : OutputChain e b (.TaskCell t i) n
  | hop (t : TaskId) (vc : RawVc) (n : Nat) :
      e.readOutput t b = .ok vc → OutputChain e b vc n →
      OutputChain e b (.TaskOutput t) (n + 1)

/-! ### Registry (`registry.rs`)

One registry (one lazy-static group of the source) is a state record: the
monotonic `IdFactory` counter, the `NoMoveVec` store indexed by id, and the
two `flurry::HashMap`s.  The concurrent maps are embedded as association
lists where `insert` prepends and `lookup` takes the newest binding, which
is exactly the overwrite semantics of `HashMap::insert`.  `V` stands for
the descriptor type (`&'static NativeFunction` / `ValueType` /
`TraitType`); ids (`FunctionId` etc., `From<usize> + Deref<usize>`) are
`Nat`. -/

/-- First-match association-list lookup (`HashMap::get` over the newest
bindings). -/
def alist_lookup [DecidableEq K] (k : K) : List (K × A) → Option A
  | [] => none
  | (k', v) :: rest => if k' = k then some v else alist_lookup k rest

/-- One registry group of registry.rs: id factory counter, `NoMoveVec`
store, by-name map and by-value map. -/
structure Registry (V : Type) where
  next_id : Nat
  store : List (Nat × V × String)
  map_by_name : List (String × Nat)
  map_by_value : List (V × Nat)

/-- The empty registry (all lazy statics freshly initialized; the id
counter starts at its initial value, taken as 0 here). -/
def Registry.empty (V : Type) : Registry V :=
  { next_id := 0, store := [], map_by_name := [], map_by_value := [] }

/-- `register_thing` from registry.rs: if the descriptor is absent from the
by-value map, draw a fresh id from the factory, insert `(value, name)` into
the store at that id, and publish into the by-value and by-name maps;
otherwise do nothing. -/
def register_thing [DecidableEq V] (global_name : String) (value : V)
    (r : Registry V) : Registry V :=
  if alist_lookup value r.map_by_value = none then
    let new_id := r.next_id
    { next_id := r.next_id + 1
      store := (new_id, value, global_name) :: r.store
      map_by_value := (value, new_id) :: r.map_by_value
      map_by_name := (global_name, new_id) :: r.map_by_name }
  else r

/-- `get_thing_id` from registry.rs: look the descriptor up in the by-value
map; `none` models the `panic!` on an unregistered descriptor. -/
def get_thing_id [DecidableEq V] (value : V) (map_by_value : List (V × Nat)) :
    Option Nat :=
  alist_lookup value map_by_value

/-- `get_function` / `get_value_type` / `get_trait`: fetch the descriptor
stored under an id; `none` models the `unwrap` abort on an unassigned id. -/
def get_thing [DecidableEq V] (id : Nat) (store : List (Nat × V × String)) :
    Option V :=
  (alist_lookup id store).map Prod.fst

/-- `get_function_global_name` and friends: fetch the name stored under an
id; `none` models the `unwrap` abort. -/
def get_thing_global_name [DecidableEq V] (id : Nat)
    (store : List (Nat × V × String)) : Option String :=
  (alist_lookup id store).map Prod.snd

/-- `get_function_id_by_global_name` and friends. -/
def get_thing_id_by_global_name (global_name : String)
    (map_by_name : List (String × Nat)) : Option Nat :=
  alist_lookup global_name map_by_name

/-! ### Concrete witnesses -/

/-- A concrete engine: the output of task 0 is the output of task 1, whose
output is cell 0 of task 2; every cell holds a payload of value type 7;
value types implement trait 3. -/
def e1 : Engine where
  readOutput := fun t _ => if t = 0 then .ok (.TaskOutput 1) else .ok (.TaskCell 2 0)
  readCell := fun _ _ => .ok (some (some 7))
  valueTraits := fun _ => [3]

/-- A concrete registry over `Nat` descriptors with descriptor 10
registered under the name foo. -/
def r1 : Registry Nat := register_thing "foo" 10 (Registry.empty Nat)

/-! ### Theorems -/

theorem resolve_ok_is_resolved (e : Engine) :
    ∀ (fuel : Nat) (h h' : RawVc), resolve e fuel h = some (.ok h') →
      h'.is_resolved = true := by
  intro fuel
  induction fuel with
  | zero =>
    intro h h' hr
    cases h with
    | TaskOutput t => simp [resolve] at hr
    | TaskCell t i =>
      simp [resolve] at hr
      simp [← hr, RawVc.is_resolved]
  | succ n ih =>
    intro h h' hr
    cases h with
    | TaskCell t i =>
      simp [resolve] at hr
      simp [← hr, RawVc.is_resolved]
    | TaskOutput t =>
      simp only [resolve] at hr
      cases hvc : e.readOutput t false with
      | ok vc =>
        rw [hvc] at hr
        exact ih vc h' hr
      | error s =>
        rw [hvc] at hr
        simp at hr

/-- C7: is_resolved returns false on TaskOutput and true on TaskCell; it is
a pure discriminator of the handle variant, taking no engine state at
all. -/
theorem is_resolved_discriminates :
    ∀ (t : TaskId) (i : Nat) (h : RawVc),
      RawVc.is_resolved (.TaskOutput t) = false ∧
      RawVc.is_resolved (.TaskCell t i) = true ∧
      (h.is_resolved = true ↔ ∃ t' i', h = .TaskCell t' i') := by
  intro t i h
  refine ⟨rfl, rfl, ?_⟩
  cases h with
  | TaskOutput t' => simp [RawVc.is_resolved]
  | TaskCell t' i' => simp [RawVc.is_resolved]

/-- C5: resolve is idempotent — a successful resolve yields a handle that
any further resolve (with any fuel) maps to itself; that handle is always
resolved (a TaskCell); and resolve applied to a TaskCell returns exactly
that handle without consulting the engine at all. -/
theorem resolve_idempotent (e : Engine) (fuel fuel' : Nat) (h h' : RawVc)
    (hr : resolve e fuel h = some (.ok h')) :
    resolve e fuel' h' = some (.ok h') ∧ h'.is_resolved = true ∧
      ∀ (e' : Engine) (f t i : Nat),
        resolve e' f (.TaskCell t i) = some (.ok (.TaskCell t i)) := by
  have hres := resolve_ok_is_resolved e fuel h h' hr
  refine ⟨?_, hres, ?_⟩
  · cases h' with
    | TaskOutput t => simp [RawVc.is_resolved] at hres
    | TaskCell t i => cases fuel' <;> rfl
  · intro e' f t i
    cases f <;> rfl

/-- C5 witness: resolving the two-hop chain of the concrete engine reaches
cell 0 of task 2, and the theorem applies to it. -/
theorem resolve_idempotent_witness :
    resolve e1 9 (.TaskCell 2 0) = some (.ok (.TaskCell 2 0)) ∧
      RawVc.is_resolved (.TaskCell 2 0) = true := by
  have h := resolve_idempotent e1 5 9 (.TaskOutput 0) (.TaskCell 2 0) (by rfl)
  exact ⟨h.1, h.2.1⟩

theorem resolve_locates_first_cell (e : Engine) (v tt : Nat) :
    ∀ (fuel : Nat) (h : RawVc) (t i : Nat),
      resolve e fuel h = some (.ok (.TaskCell t i)) →
      resolve_value e v fuel h = some (resolve_value_step e v t i) ∧
      resolve_trait e tt fuel h = some (resolve_trait_step e tt t i) := by
  intro fuel
  induction fuel with
  | zero =>
    intro h t i hr
    cases h with
    | TaskOutput task => simp [resolve] at hr
    | TaskCell task index =>
      simp [resolve] at hr
      obtain ⟨ht, hi⟩ := hr
      subst ht; subst hi
      exact ⟨rfl, rfl⟩
  | succ n ih =>
    intro h t i hr
    cases h with
    | TaskCell task index =>
      simp [resolve] at hr
      obtain ⟨ht, hi⟩ := hr
      subst ht; subst hi
      exact ⟨rfl, rfl⟩
    | TaskOutput task =>
      simp only [resolve] at hr
      cases hvc : e.readOutput task false with
      | ok vc =>
        rw [hvc] at hr
        have hrec := ih vc t i hr
        constructor
        · simp only [resolve_value, hvc]
          exact hrec.1
        · simp only [resolve_trait, hvc]
          exact hrec.2
      | error s =>
        rw [hvc] at hr
        simp at hr

/-- C2: resolve_value and resolve_trait follow output hops to the first
TaskCell; when that cell holds a typed payload they return the cell handle
exactly when the payload's value-type-id equals the requested one
(resolve_value) or the value type's trait list contains the requested
trait (resolve_trait), and Ok none otherwise; any handle they return is
resolved. -/
theorem resolve_value_trait_first_cell (e : Engine) (v tt fuel : Nat)
    (h : RawVc) (t i vt : Nat)
    (hr : resolve e fuel h = some (.ok (.TaskCell t i)))
    (hc : e.readCell t i = .ok (some (some vt))) :
    resolve_value e v fuel h =
      some (.ok (if vt = v then some (.TaskCell t i) else none)) ∧
    resolve_trait e tt fuel h =
      some (.ok (if (e.valueTraits vt).contains tt then some (.TaskCell t i)
        else none)) ∧
    (∀ c : RawVc, resolve_value e v fuel h = some (.ok (some c)) →
      c.is_resolved = true) ∧
    (∀ c : RawVc, resolve_trait e tt fuel h = some (.ok (some c)) →
      c.is_resolved = true) := by
  obtain ⟨h1, h2⟩ := resolve_locates_first_cell e v tt fuel h t i hr
  have hsv : resolve_value_step e v t i =
      .ok (if vt = v then some (.TaskCell t i) else none) := by
    unfold resolve_value_step
    simp only [hc]
    split <;> rfl
  have hst : resolve_trait_step e tt t i =
      .ok (if (e.valueTraits vt).contains tt then some (.TaskCell t i)
        else none) := by
    unfold resolve_trait_step
    simp only [hc]
    split <;> rfl
  rw [h1, h2, hsv, hst]
  refine ⟨rfl, rfl, ?_, ?_⟩
  · intro c hcv
    by_cases hvt : vt = v
    · rw [if_pos hvt] at hcv
      simp only [Option.some_inj, Except.ok.injEq] at hcv
      rw [← hcv]
      rfl
    · rw [if_neg hvt] at hcv
      simp at hcv
  · intro c hcv
    by_cases htr : (e.valueTraits vt).contains tt
    · rw [if_pos htr] at hcv
      simp only [Option.some_inj, Except.ok.injEq] at hcv
      rw [← hcv]
      rfl
    · rw [if_neg htr] at hcv
      simp at hcv

/-- C2 witness: on the concrete engine the chain from the output of task 0
ends at cell 0 of task 2 holding value type 7; resolving for value type 7
returns the cell, and the returned handle is resolved. -/
theorem resolve_value_trait_first_cell_witness :
    resolve_value e1 7 5 (.TaskOutput 0) =
      some (.ok (some (.TaskCell 2 0))) ∧
    resolve_trait e1 3 5 (.TaskOutput 0) =
      some (.ok (some (.TaskCell 2 0))) := by
  have h := resolve_value_trait_first_cell e1 7 3 5 (.TaskOutput 0) 2 0 7
    (by rfl) (by rfl)
  constructor
  · rw [h.1]; rfl
  · rw [h.2.1]; rfl

/-- C3: the failure cases of resolve_value / resolve_trait — an empty cell
yields NoContent, a typed-payload-free cell yields UntypedContent, a
failing cell read yields ReadError with the cause, a failing output hop
yields TaskError with the cause, and a value-type or trait mismatch is not
an error but Ok none. -/
theorem resolve_type_error_cases (e : Engine) (v tt fuel : Nat) (h : RawVc)
    (t i : Nat) (s : String)
    (hr : resolve e fuel h = some (.ok (.TaskCell t i))) :
    (e.readCell t i = .ok none →
      resolve_value e v fuel h = some (.error .noContent) ∧
      resolve_trait e tt fuel h = some (.error .noContent)) ∧
    (e.readCell t i = .ok (some none) →
      resolve_value e v fuel h = some (.error .untypedContent) ∧
      resolve_trait e tt fuel h = some (.error .untypedContent)) ∧
    (e.readCell t i = .error s →
      resolve_value e v fuel h = some (.error (.readError s)) ∧
      resolve_trait e tt fuel h = some (.error (.readError s))) ∧
    (∀ task : TaskId, e.readOutput task false = .error s →
      resolve_value e v (fuel + 1) (.TaskOutput task) =
        some (.error (.taskError s)) ∧
      resolve_trait e tt (fuel + 1) (.TaskOutput task) =
        some (.error (.taskError s))) ∧
    (∀ vt : ValueTypeId, e.readCell t i = .ok (some (some vt)) → vt ≠ v →
      resolve_value e v fuel h = some (.ok none)) ∧
    (∀ vt : ValueTypeId, e.readCell t i = .ok (some (some vt)) →
      (e.valueTraits vt).contains tt = false →
      resolve_trait e tt fuel h = some (.ok none)) := by
  obtain ⟨h1, h2⟩ := resolve_locates_first_cell e v tt fuel h t i hr
  refine ⟨?_, ?_, ?_, ?_, ?_, ?_⟩
  · intro hc
    rw [h1, h2]
    unfold resolve_value_step resolve_trait_step
    rw [hc]
    exact ⟨rfl, rfl⟩
  · intro hc
    rw [h1, h2]
    unfold resolve_value_step resolve_trait_step
    rw [hc]
    exact ⟨rfl, rfl⟩
  · intro hc
    rw [h1, h2]
    unfold resolve_value_step resolve_trait_step
    rw [hc]
    exact ⟨rfl, rfl⟩
  · intro task hro
    constructor
    · simp only [resolve_value, hro]
    · simp only [resolve_trait, hro]
  · intro vt hc hne
    rw [h1]
    unfold resolve_value_step
    rw [hc]
    simp [if_neg hne]
  · intro vt hc hne
    rw [h2]
    unfold resolve_trait_step
    simp only [hc]
    have hnm : ¬ tt ∈ e.valueTraits vt := by simpa using hne
    simp [hnm]

/-- C3 witness: an engine whose only cell is empty makes resolve_value
return NoContent from the chain of the concrete example shape. -/
theorem resolve_type_error_cases_witness :
    resolve_value e1 9 5 (.TaskOutput 0) = some (.ok none) := by
  have h := resolve_type_error_cases e1 9 3 5 (.TaskOutput 0) 2 0 "s" (by rfl)
  exact h.2.2.2.2.1 7 (by rfl) (by decide)

theorem resolve_chain_isSome (e : Engine) (h : RawVc) (n : Nat)
    (hc : OutputChain e false h n) :
    ∀ fuel, n ≤ fuel → (resolve e fuel h).isSome := by
  induction hc with
  | cell t i m =>
    intro fuel _
    cases fuel <;> rfl
  | hop t vc m hread _ ih =>
    intro fuel hf
    cases fuel with
    | zero => exact absurd hf (by omega)
    | succ f =>
      simp only [resolve, hread]
      exact ih f (Nat.le_of_succ_le_succ hf)

theorem resolve_value_chain_isSome (e : Engine) (v : Nat) (h : RawVc)
    (n : Nat) (hc : OutputChain e false h n) :
    ∀ fuel, n ≤ fuel → (resolve_value e v fuel h).isSome := by
  induction hc with
  | cell t i m =>
    intro fuel _
    cases fuel <;> rfl
  | hop t vc m hread _ ih =>
    intro fuel hf
    cases fuel with
    | zero => exact absurd hf (by omega)
    | succ f =>
      simp only [resolve_value, hread]
      exact ih f (Nat.le_of_succ_le_succ hf)

theorem resolve_trait_chain_isSome (e : Engine) (tt : Nat) (h : RawVc)
    (n : Nat) (hc : OutputChain e false h n) :
    ∀ fuel, n ≤ fuel → (resolve_trait e tt fuel h).isSome := by
  induction hc with
  | cell t i m =>
    intro fuel _
    cases fuel <;> rfl
  | hop t vc m hread _ ih =>
    intro fuel hf
    cases fuel with
    | zero => exact absurd hf (by omega)
    | succ f =>
      simp only [resolve_trait, hread]
      exact ih f (Nat.le_of_succ_le_succ hf)

theorem untracked_chain_isSome (e : Engine) (b : Bool) (h : RawVc)
    (n : Nat) (hc : OutputChain e b h n) :
    ∀ fuel, n ≤ fuel → (into_read_untracked_internal e b fuel h).isSome := by
  induction hc with
  | cell t i m =>
    intro fuel _
    cases fuel <;> rfl
  | hop t vc m hread _ ih =>
    intro fuel hf
    cases fuel with
    | zero => exact absurd hf (by omega)
    | succ f =>
      simp only [into_read_untracked_internal, hread]
      have hrec := ih f (Nat.le_of_succ_le_succ hf)
      cases hx : into_read_untracked_internal e b f vc with
      | none => rw [hx] at hrec; simp at hrec
      | some p => rfl

/-- C6: under the precondition that following output slots reaches a
TaskCell after finitely many hops, every resolution loop — resolve,
resolve_value, resolve_trait and the untracked read — finishes within that
many output reads (any fuel at least the chain length suffices). -/
theorem resolution_terminates (e : Engine) (b : Bool) (v tt n fuel : Nat)
    (h : RawVc) (hc : OutputChain e false h n) (hcb : OutputChain e b h n)
    (hf : n ≤ fuel) :
    (resolve e fuel h).isSome ∧ (resolve_value e v fuel h).isSome ∧
    (resolve_trait e tt fuel h).isSome ∧
    (into_read_untracked_internal e b fuel h).isSome :=
  ⟨resolve_chain_isSome e h n hc fuel hf,
   resolve_value_chain_isSome e v h n hc fuel hf,
   resolve_trait_chain_isSome e tt h n hc fuel hf,
   untracked_chain_isSome e b h n hcb fuel hf⟩

/-- C6 witness: the concrete engine's chain from the output of task 0 has
two hops, so fuel 2 already suffices for all four loops. -/
theorem resolution_terminates_witness :
    (resolve e1 2 (.TaskOutput 0)).isSome ∧
    (resolve_value e1 7 2 (.TaskOutput 0)).isSome ∧
    (resolve_trait e1 3 2 (.TaskOutput 0)).isSome ∧
    (into_read_untracked_internal e1 true 2 (.TaskOutput 0)).isSome := by
  have chain_false : OutputChain e1 false (.TaskOutput 0) 2 :=
    OutputChain.hop 0 (.TaskOutput 1) 1 (by rfl)
      (OutputChain.hop 1 (.TaskCell 2 0) 0 (by rfl) (OutputChain.cell 2 0 0))
  have chain_true : OutputChain e1 true (.TaskOutput 0) 2 :=
    OutputChain.hop 0 (.TaskOutput 1) 1 (by rfl)
      (OutputChain.hop 1 (.TaskCell 2 0) 0 (by rfl) (OutputChain.cell 2 0 0))
  exact resolution_terminates e1 true 7 3 2 2 (.TaskOutput 0)
    chain_false chain_true (by decide)

theorem read_raw_vc_poll_output_ok (e : Engine) (n : Nat) (sc : Bool)
    (t : TaskId) (vc : RawVc) (hvc : e.readOutput t sc = .ok vc) :
    read_raw_vc_poll e (n + 1) sc (.TaskOutput t) =
      (read_raw_vc_poll e n false vc).map (fun p => (p.1, (t, sc) :: p.2)) := by
  simp only [read_raw_vc_poll, hvc]

theorem read_raw_vc_poll_output_error (e : Engine) (n : Nat) (sc : Bool)
    (t : TaskId) (s : String) (hvc : e.readOutput t sc = .error s) :
    read_raw_vc_poll e (n + 1) sc (.TaskOutput t) =
      some (.error s, [(t, sc)]) := by
  simp only [read_raw_vc_poll, hvc]

theorem untracked_output_ok (e : Engine) (n : Nat) (sc : Bool)
    (t : TaskId) (vc : RawVc) (hvc : e.readOutput t sc = .ok vc) :
    into_read_untracked_internal e sc (n + 1) (.TaskOutput t) =
      (into_read_untracked_internal e sc n vc).map
        (fun p => (p.1, (t, sc) :: p.2)) := by
  simp only [into_read_untracked_internal, hvc]

theorem untracked_output_error (e : Engine) (n : Nat) (sc : Bool)
    (t : TaskId) (s : String) (hvc : e.readOutput t sc = .error s) :
    into_read_untracked_internal e sc (n + 1) (.TaskOutput t) =
      some (.error s, [(t, sc)]) := by
  simp only [into_read_untracked_internal, hvc]

theorem poll_hops_false (e : Engine) :
    ∀ (fuel : Nat) (vc : RawVc) (r : Except String CellContent)
      (tr : List (TaskId × Bool)),
      read_raw_vc_poll e fuel false vc = some (r, tr) → ∀ p ∈ tr, p.2 = false := by
  intro fuel
  induction fuel with
  | zero =>
    intro vc r tr hp
    cases vc with
    | TaskOutput t => simp [read_raw_vc_poll] at hp
    | TaskCell t i =>
      have hp' : some ((e.readCell t i : Except String CellContent),
          ([] : List (TaskId × Bool))) = some (r, tr) := hp
      simp only [Option.some_inj, Prod.mk.injEq] at hp'
      intro p hmem
      rw [← hp'.2] at hmem
      simp at hmem
  | succ n ih =>
    intro vc r tr hp
    cases vc with
    | TaskCell t i =>
      have hp' : some ((e.readCell t i : Except String CellContent),
          ([] : List (TaskId × Bool))) = some (r, tr) := hp
      simp only [Option.some_inj, Prod.mk.injEq] at hp'
      intro p hmem
      rw [← hp'.2] at hmem
      simp at hmem
    | TaskOutput t =>
      cases hvc : e.readOutput t false with
      | ok vc' =>
        rw [read_raw_vc_poll_output_ok e n false t vc' hvc] at hp
        cases hx : read_raw_vc_poll e n false vc' with
        | none => rw [hx] at hp; simp at hp
        | some q =>
          rw [hx] at hp
          simp only [Option.map_some', Option.some_inj, Prod.mk.injEq] at hp
          intro p hmem
          rw [← hp.2] at hmem
          simp only [List.mem_cons] at hmem
          cases hmem with
          | inl hhead => rw [hhead]
          | inr htail =>
            exact ih vc' q.1 q.2 (by rw [hx]) p htail
      | error s =>
        rw [read_raw_vc_poll_output_error e n false t s hvc] at hp
        simp only [Option.some_inj, Prod.mk.injEq] at hp
        intro p hmem
        rw [← hp.2] at hmem
        simp only [List.mem_singleton] at hmem
        rw [hmem]

theorem untracked_hops_flag (e : Engine) (sc : Bool) :
    ∀ (fuel : Nat) (vc : RawVc) (r : Except String CellContent)
      (tr : List (TaskId × Bool)),
      into_read_untracked_internal e sc fuel vc = some (r, tr) →
      ∀ p ∈ tr, p.2 = sc := by
  intro fuel
  induction fuel with
  | zero =>
    intro vc r tr hp
    cases vc with
    | TaskOutput t => simp [into_read_untracked_internal] at hp
    | TaskCell t i =>
      have hp' : some ((e.readCell t i : Except String CellContent),
          ([] : List (TaskId × Bool))) = some (r, tr) := hp
      simp only [Option.some_inj, Prod.mk.injEq] at hp'
      intro p hmem
      rw [← hp'.2] at hmem
      simp at hmem
  | succ n ih =>
    intro vc r tr hp
    cases vc with
    | TaskCell t i =>
      have hp' : some ((e.readCell t i : Except String CellContent),
          ([] : List (TaskId × Bool))) = some (r, tr) := hp
      simp only [Option.some_inj, Prod.mk.injEq] at hp'
      intro p hmem
      rw [← hp'.2] at hmem
      simp at hmem
    | TaskOutput t =>
      cases hvc : e.readOutput t sc with
      | ok vc' =>
        rw [untracked_output_ok e n sc t vc' hvc] at hp
        cases hx : into_read_untracked_internal e sc n vc' with
        | none => rw [hx] at hp; simp at hp
        | some q =>
          rw [hx] at hp
          simp only [Option.map_some', Option.some_inj, Prod.mk.injEq] at hp
          intro p hmem
          rw [← hp.2] at hmem
          simp only [List.mem_cons] at hmem
          cases hmem with
          | inl hhead => rw [hhead]
          | inr htail =>
            exact ih vc' q.1 q.2 (by rw [hx]) p htail
      | error s =>
        rw [untracked_output_error e n sc t s hvc] at hp
        simp only [Option.some_inj, Prod.mk.injEq] at hp
        intro p hmem
        rw [← hp.2] at hmem
        simp only [List.mem_singleton] at hmem
        rw [hmem]

/-- C1 (amended): in the tracked ReadRawVcFuture the strongly_consistent
flag reaches the output read only on the first hop — every later hop of
the trace is issued with strongly_consistent = false — while the untracked
read loop passes the caller's original flag unchanged on every output
hop. -/
theorem strongly_consistent_first_hop (e : Engine) (fuel : Nat) (sc : Bool)
    (vc : RawVc) (r r' : Except String CellContent)
    (tr tr' : List (TaskId × Bool))
    (hp : read_raw_vc_poll e fuel sc vc = some (r, tr))
    (hu : into_read_untracked_internal e sc fuel vc = some (r', tr')) :
    (∀ p ∈ tr.tail, p.2 = false) ∧ (∀ p ∈ tr', p.2 = sc) := by
  refine ⟨?_, untracked_hops_flag e sc fuel vc r' tr' hu⟩
  cases vc with
  | TaskCell t i =>
    have hp' : some ((e.readCell t i : Except String CellContent),
        ([] : List (TaskId × Bool))) = some (r, tr) := by
      rw [← hp]
      cases fuel <;> rfl
    simp only [Option.some_inj, Prod.mk.injEq] at hp'
    intro p hmem
    rw [← hp'.2] at hmem
    simp at hmem
  | TaskOutput t =>
    cases fuel with
    | zero => simp [read_raw_vc_poll] at hp
    | succ n =>
      cases hvc : e.readOutput t sc with
      | ok vc' =>
        rw [read_raw_vc_poll_output_ok e n sc t vc' hvc] at hp
        cases hx : read_raw_vc_poll e n false vc' with
        | none => rw [hx] at hp; simp at hp
        | some q =>
          rw [hx] at hp
          simp only [Option.map_some', Option.some_inj, Prod.mk.injEq] at hp
          intro p hmem
          rw [← hp.2] at hmem
          simp only [List.tail_cons] at hmem
          exact poll_hops_false e n vc' q.1 q.2 (by rw [hx]) p hmem
      | error s =>
        rw [read_raw_vc_poll_output_error e n sc t s hvc] at hp
        simp only [Option.some_inj, Prod.mk.injEq] at hp
        intro p hmem
        rw [← hp.2] at hmem
        simp at hmem

/-- C1 counterexample: on the concrete engine, an untracked
strongly-consistent read from the output of task 0 makes two output hops
and issues BOTH with strongly_consistent = true — the second (subsequent)
hop is not issued with false, contrary to the claim. -/
theorem strongly_consistent_untracked_counterexample :
    into_read_untracked_internal e1 true 5 (.TaskOutput 0) =
      some (.ok (some (some 7)), [(0, true), (1, true)]) ∧
    ([((0 : TaskId), true), (1, true)].tail = [(1, true)] ∧
      (true : Bool) ≠ false) := by
  refine ⟨by rfl, by rfl, by decide⟩

/-- C1 witness: on the concrete engine a tracked strongly-consistent read
from the output of task 0 yields the hop trace with flags true then false,
and an untracked one the trace with flag true on both hops. -/
theorem strongly_consistent_first_hop_witness :
    (∀ p ∈ [((1 : TaskId), false)], Prod.snd p = false) ∧
    (∀ p ∈ [((0 : TaskId), true), (1, true)], Prod.snd p = true) := by
  have h := strongly_consistent_first_hop e1 5 true (.TaskOutput 0)
    (.ok (some (some 7))) (.ok (some (some 7)))
    [(0, true), (1, false)] [(0, true), (1, true)] (by rfl) (by rfl)
  exact ⟨fun p hp => h.1 p hp, h.2⟩

/-- C4: registration is idempotent — when the descriptor is already in the
by-value map, register_thing leaves the whole registry state unchanged;
only a first registration bumps the monotonic counter, appends to the
store and publishes into the by-value and by-name maps. -/
theorem register_idempotent [DecidableEq V] (global_name global_name2 : String)
    (value : V) (r : Registry V) (i : Nat)
    (hv : alist_lookup value r.map_by_value = some i) :
    register_thing global_name value r = r ∧
    ∀ (r2 : Registry V), alist_lookup value r2.map_by_value = none →
      (register_thing global_name2 value r2).next_id = r2.next_id + 1 ∧
      (register_thing global_name2 value r2).store =
        (r2.next_id, value, global_name2) :: r2.store ∧
      (register_thing global_name2 value r2).map_by_value =
        (value, r2.next_id) :: r2.map_by_value ∧
      (register_thing global_name2 value r2).map_by_name =
        (global_name2, r2.next_id) :: r2.map_by_name := by
  constructor
  · simp [register_thing, hv]
  · intro r2 hnone
    refine ⟨?_, ?_, ?_, ?_⟩ <;> simp [register_thing, hnone]

/-- C4 witness: registering descriptor 10 again (under another name) on
the concrete registry that already holds it changes nothing. -/
theorem register_idempotent_witness : register_thing "bar" 10 r1 = r1 :=
  (register_idempotent "bar" "baz" 10 r1 0 (by rfl)).1

/-- C8: the id-of lookup returns an id exactly when the descriptor is in
the by-value map and aborts (None) exactly when it is not; it never
fabricates an id, and after a registration of the descriptor it always
succeeds. -/
theorem get_id_iff_registered [DecidableEq V] (value : V)
    (m : List (V × Nat)) (i : Nat) :
    (get_thing_id value m = none ↔ alist_lookup value m = none) ∧
    (get_thing_id value m = some i ↔ alist_lookup value m = some i) ∧
    ∀ (global_name : String) (r : Registry V),
      (get_thing_id value
        (register_thing global_name value r).map_by_value).isSome := by
  refine ⟨Iff.rfl, Iff.rfl, ?_⟩
  intro gn r
  by_cases hv : alist_lookup value r.map_by_value = none
  · simp [get_thing_id, register_thing, hv, alist_lookup]
  · simp only [get_thing_id, register_thing, hv, if_false]
    exact Option.isSome_iff_ne_none.mpr hv

/-- C9: registering a fresh name and descriptor assigns id next_id and the
lookups round-trip — id-by-name, descriptor-of-id, name-of-id and
id-of-descriptor all agree, and when the store was total on the ids below
the counter before, it stays total on all assigned ids afterwards. -/
theorem register_round_trip [DecidableEq V] (global_name : String) (value : V)
    (r : Registry V)
    (_hname : alist_lookup global_name r.map_by_name = none)
    (hv : alist_lookup value r.map_by_value = none) :
    get_thing_id_by_global_name global_name
        (register_thing global_name value r).map_by_name = some r.next_id ∧
    get_thing r.next_id (register_thing global_name value r).store =
      some value ∧
    get_thing_global_name r.next_id
        (register_thing global_name value r).store = some global_name ∧
    get_thing_id value (register_thing global_name value r).map_by_value =
      some r.next_id ∧
    ((∀ k, k < r.next_id → (alist_lookup k r.store).isSome) →
      ∀ k, k < (register_thing global_name value r).next_id →
        (get_thing k (register_thing global_name value r).store).isSome ∧
        (get_thing_global_name k
          (register_thing global_name value r).store).isSome) := by
  refine ⟨?_, ?_, ?_, ?_, ?_⟩
  · simp [register_thing, hv, get_thing_id_by_global_name, alist_lookup]
  · simp [register_thing, hv, get_thing, alist_lookup]
  · simp [register_thing, hv, get_thing_global_name, alist_lookup]
  · simp [register_thing, hv, get_thing_id, alist_lookup]
  · intro htot k hk
    have hk' : k < r.next_id + 1 := by
      simpa [register_thing, hv] using hk
    by_cases hkeq : k = r.next_id
    · subst hkeq
      refine ⟨?_, ?_⟩ <;>
        simp [register_thing, hv, get_thing, get_thing_global_name,
          alist_lookup]
    · have hklt : k < r.next_id := by omega
      have hsome := htot k hklt
      cases hs : alist_lookup k r.store with
      | none => rw [hs] at hsome; simp at hsome
      | some p =>
        refine ⟨?_, ?_⟩ <;>
          simp [register_thing, hv, get_thing, get_thing_global_name,
            alist_lookup, show r.next_id ≠ k from fun hx => hkeq hx.symm, hs]

/-- C9 witness: registering descriptor 20 under the fresh name bar on the
concrete registry assigns id 1, and name and store lookups round-trip. -/
theorem register_round_trip_witness :
    get_thing_id_by_global_name "bar"
        (register_thing "bar" 20 r1).map_by_name = some 1 ∧
    get_thing 1 (register_thing "bar" 20 r1).store = some 20 := by
  have h := register_round_trip "bar" 20 r1 (by rfl) (by rfl)
  exact ⟨h.1, h.2.1⟩

/-- C10: registering a second, distinct descriptor under an
already-mapped global name overwrites the name binding to the new id,
while the first descriptor keeps its id in the by-value map and its store
entry, and the second descriptor gets the fresh id. -/
theorem register_name_overwrite [DecidableEq V] (global_name : String)
    (value1 value2 : V) (r : Registry V) (i1 : Nat) (st : V × String)
    (h1 : alist_lookup value1 r.map_by_value = some i1)
    (_hn : alist_lookup global_name r.map_by_name = some i1)
    (h2 : alist_lookup value2 r.map_by_value = none)
    (hi : i1 ≠ r.next_id)
    (hs : alist_lookup i1 r.store = some st) :
    get_thing_id_by_global_name global_name
        (register_thing global_name value2 r).map_by_name = some r.next_id ∧
    get_thing_id value1 (register_thing global_name value2 r).map_by_value =
      some i1 ∧
    get_thing_id value2 (register_thing global_name value2 r).map_by_value =
      some r.next_id ∧
    alist_lookup i1 (register_thing global_name value2 r).store = some st := by
  have hne : value2 ≠ value1 := by
    intro hx
    rw [hx, h1] at h2
    exact Option.noConfusion h2
  refine ⟨?_, ?_, ?_, ?_⟩
  · simp [register_thing, h2, get_thing_id_by_global_name, alist_lookup]
  · simp [register_thing, h2, get_thing_id, alist_lookup, hne, h1]
  · simp [register_thing, h2, get_thing_id, alist_lookup]
  · simp [register_thing, h2, alist_lookup,
      show r.next_id ≠ i1 from fun hx => hi hx.symm, hs]

/-- C10 witness: registering descriptor 20 under the taken name foo on the
concrete registry rebinds foo to id 1 while descriptor 10 keeps id 0. -/
theorem register_name_overwrite_witness :
    get_thing_id_by_global_name "foo"
        (register_thing "foo" 20 r1).map_by_name = some 1 ∧
    get_thing_id 10 (register_thing "foo" 20 r1).map_by_value = some 0 := by
  have h := register_name_overwrite "foo" 10 20 r1 0 (10, "foo")
    (by rfl) (by rfl) (by rfl) (by decide) (by rfl)
  exact ⟨h.1, h.2.1⟩

end Turbo
